import Mathlib

-- Shallow embedding of the Sudoku engine in baroobob/sudoku
-- (src/sudoku.py and src/sudoku_solver.py).
-- A grid is a 9x9 matrix of natural numbers; 0 denotes an empty cell.
-- The mutable state of the Python class is passed explicitly: the working
-- solution grid is a `Grid`, and the cached `_possible_values` /
-- `_possibilities` structures are recomputed from the grid exactly where
-- `_update_possible_values` runs in the source.

set_option maxRecDepth 8000

abbrev Grid : Type := Fin 9 → Fin 9 → ℕ

-- the literal list [1, 2, ..., 9] that sudoku.py uses for range tests
def oneTo9 : List ℕ := [1, 2, 3, 4, 5, 6, 7, 8, 9]

def zeroGrid : Grid := fun _ _ => 0

-- an assignment `self._solution[i][j] = v`
def setCell (g : Grid) (r c : Fin 9) (v : ℕ) : Grid :=
  fun i j => if i = r ∧ j = c then v else g i j

-- _constraining_locations(row, column): the 9x9 0/1 array with ones on the
-- row, the column and the 3x3 region of (row, column), minus the location
-- itself; rendered as its characteristic predicate.
def constrainingLocations (row column i j : Fin 9) : Bool :=
  decide (¬(i = row ∧ j = column) ∧
    (i = row ∨ j = column ∨ (i.val / 3 = row.val / 3 ∧ j.val / 3 = column.val / 3)))

-- the row-major list of all 81 locations, the iteration space of the
-- source's nested `for i in range(9): for j in range(9)` loops
def allLocs : List (Fin 9 × Fin 9) :=
  (List.finRange 9).flatMap (fun i => (List.finRange 9).map (fun j => (i, j)))

-- _find_possible_values(row, column): start from [1..9] for an empty
-- location (or [] for a filled one) and remove, scanning the whole grid in
-- row-major order, every value found at a constraining location.
def findPossibleValues (g : Grid) (row column : Fin 9) : List ℕ :=
  allLocs.foldl
    (fun acc p =>
      if constrainingLocations row column p.1 p.2 = true then
        (if g p.1 p.2 ∈ acc then acc.erase (g p.1 p.2) else acc)
      else acc)
    (if g row column ∈ oneTo9 then [] else oneTo9)

-- the cached entry _possibilities[row][column] as written by
-- _update_possible_values: the length of the possible-value list.
def possibilities (g : Grid) (row column : Fin 9) : ℕ :=
  (findPossibleValues g row column).length

-- generic fold helpers used to analyse the removal loop

lemma foldl_preserve {α β : Type} (P : α → Prop) (f : α → β → α) (l : List β)
    (h : ∀ a b, P a → P (f a b)) : ∀ a, P a → P (l.foldl f a) := by
  induction l with
  | nil => intro a ha; simpa using ha
  | cons x xs ih => intro a ha; exact ih (f a x) (h a x ha)

lemma foldl_guard {α β : Type} (p : β → Bool) (f : α → β → α) (l : List β) :
    ∀ a : α, l.foldl (fun acc x => if p x = true then f acc x else acc) a
      = (l.filter p).foldl f a := by
  induction l with
  | nil => intro a; simp
  | cons x xs ih =>
    intro a
    by_cases hx : p x = true <;> simp [hx, ih]

lemma foldl_erase_eq_filter (vals : List ℕ) :
    ∀ init : List ℕ, init.Nodup →
      vals.foldl List.erase init = init.filter (fun x => decide (x ∉ vals)) := by
  induction vals with
  | nil => intro init _; simp
  | cons v vs ih =>
    intro init hnd
    have h1 : (v :: vs).foldl List.erase init = vs.foldl List.erase (init.erase v) := rfl
    rw [h1, ih (init.erase v) (hnd.erase v), hnd.erase_eq_filter]
    rw [List.filter_filter]
    apply List.filter_congr
    intro x _
    by_cases hxv : x = v <;> by_cases hxvs : x ∈ vs <;> simp [hxv, hxvs]

lemma erase_step_eq (acc : List ℕ) (v : ℕ) :
    (if v ∈ acc then acc.erase v else acc) = acc.erase v := by
  by_cases h : v ∈ acc
  · simp [h]
  · simp [h, List.erase_of_not_mem h]

-- the values at the constraining locations of (row, column), scanned in
-- row-major order
def peerVals (g : Grid) (row column : Fin 9) : List ℕ :=
  ((allLocs.filter (fun p => constrainingLocations row column p.1 p.2)).map
    (fun p => g p.1 p.2))

lemma foldl_ext {α β : Type} (f f2 : α → β → α) (l : List β)
    (h : ∀ a b, f a b = f2 a b) : ∀ a : α, l.foldl f a = l.foldl f2 a := by
  induction l with
  | nil => intro a; rfl
  | cons x xs ih => intro a; simp only [List.foldl_cons, h, ih]

lemma findPossibleValues_eq_filter (g : Grid) (row column : Fin 9) :
    findPossibleValues g row column =
      (if g row column ∈ oneTo9 then [] else oneTo9).filter
        (fun x => decide (x ∉ peerVals g row column)) := by
  have h2 : allLocs.foldl (fun acc p =>
        if constrainingLocations row column p.1 p.2 = true then
          (if g p.1 p.2 ∈ acc then acc.erase (g p.1 p.2) else acc) else acc)
        (if g row column ∈ oneTo9 then [] else oneTo9)
      = allLocs.foldl (fun acc p =>
          if constrainingLocations row column p.1 p.2 = true then
            acc.erase (g p.1 p.2) else acc)
          (if g row column ∈ oneTo9 then [] else oneTo9) := by
    apply foldl_ext
    intro acc p
    by_cases h : constrainingLocations row column p.1 p.2 = true <;>
      simp [h, erase_step_eq]
  have h3 : allLocs.foldl (fun acc p =>
        if constrainingLocations row column p.1 p.2 = true then
          acc.erase (g p.1 p.2) else acc)
        (if g row column ∈ oneTo9 then [] else oneTo9)
      = (allLocs.filter (fun p => constrainingLocations row column p.1 p.2)).foldl
          (fun acc p => acc.erase (g p.1 p.2))
          (if g row column ∈ oneTo9 then [] else oneTo9) :=
    foldl_guard (fun p => constrainingLocations row column p.1 p.2)
      (fun (acc : List ℕ) (p : Fin 9 × Fin 9) => acc.erase (g p.1 p.2)) allLocs _
  have h4 : (allLocs.filter (fun p => constrainingLocations row column p.1 p.2)).foldl
        (fun acc p => acc.erase (g p.1 p.2))
        (if g row column ∈ oneTo9 then [] else oneTo9)
      = (peerVals g row column).foldl List.erase
        (if g row column ∈ oneTo9 then [] else oneTo9) :=
    (List.foldl_map _ _ _ _).symm
  have h5 := foldl_erase_eq_filter (peerVals g row column)
    (if g row column ∈ oneTo9 then [] else oneTo9)
    (by split <;> decide)
  rw [findPossibleValues, h2, h3, h4, h5]

lemma mem_oneTo9 {v : ℕ} : v ∈ oneTo9 ↔ 1 ≤ v ∧ v ≤ 9 := by
  simp only [oneTo9, List.mem_cons, List.not_mem_nil, or_false]
  omega

lemma mem_allLocs (p : Fin 9 × Fin 9) : p ∈ allLocs := by
  rcases p with ⟨i, j⟩
  simp [allLocs, List.mem_flatMap]

lemma mem_peerVals {g : Grid} {row column : Fin 9} {v : ℕ} :
    v ∈ peerVals g row column ↔
      ∃ i j, constrainingLocations row column i j = true ∧ g i j = v := by
  unfold peerVals
  simp only [List.mem_map, List.mem_filter]
  constructor
  · rintro ⟨⟨i, j⟩, ⟨_, hc⟩, hv⟩
    exact ⟨i, j, hc, hv⟩
  · rintro ⟨i, j, hc, hv⟩
    exact ⟨(i, j), ⟨mem_allLocs _, hc⟩, hv⟩

lemma findPossibleValues_filled {g : Grid} {row column : Fin 9}
    (h : g row column ∈ oneTo9) : findPossibleValues g row column = [] := by
  rw [findPossibleValues_eq_filter, if_pos h, List.filter_nil]

lemma findPossibleValues_sub_oneTo9 {g : Grid} {row column : Fin 9} {v : ℕ}
    (h : v ∈ findPossibleValues g row column) : v ∈ oneTo9 := by
  rw [findPossibleValues_eq_filter] at h
  rcases List.mem_filter.mp h with ⟨hmem, _⟩
  by_cases hf : g row column ∈ oneTo9
  · rw [if_pos hf] at hmem; cases hmem
  · rwa [if_neg hf] at hmem

lemma findPossibleValues_ne_nil_empty {g : Grid} {row column : Fin 9}
    (h : findPossibleValues g row column ≠ []) : g row column ∉ oneTo9 := by
  intro hf
  exact h (findPossibleValues_filled hf)

lemma mem_findPossibleValues {g : Grid} {row column : Fin 9} {v : ℕ}
    (h : g row column ∉ oneTo9) :
    v ∈ findPossibleValues g row column ↔
      v ∈ oneTo9 ∧
        ∀ i j, constrainingLocations row column i j = true → g i j ≠ v := by
  rw [findPossibleValues_eq_filter, if_neg h, List.mem_filter]
  constructor
  · rintro ⟨hv, hnp⟩
    refine ⟨hv, ?_⟩
    intro i j hc hgv
    have : v ∈ peerVals g row column := mem_peerVals.mpr ⟨i, j, hc, hgv⟩
    simp only [decide_eq_true_eq] at hnp
    exact hnp this
  · rintro ⟨hv, hnp⟩
    refine ⟨hv, ?_⟩
    simp only [decide_eq_true_eq]
    intro hmem
    rcases mem_peerVals.mp hmem with ⟨i, j, hc, hgv⟩
    exact hnp i j hc hgv

lemma findPossibleValues_nodup (g : Grid) (row column : Fin 9) :
    (findPossibleValues g row column).Nodup := by
  rw [findPossibleValues_eq_filter]
  apply List.Nodup.filter
  split <;> decide

lemma possibilities_eq_card (g : Grid) (row column : Fin 9) :
    possibilities g row column = (findPossibleValues g row column).toFinset.card := by
  rw [possibilities,
    List.toFinset_card_of_nodup (findPossibleValues_nodup g row column)]

/-- C2: for a 9x9 solution grid with entries in [0,9], after the candidate
model is recomputed (`_update_possible_values`): every cell holding 0 has
candidate set {1..9} minus the set of nonzero values held by its
constraining peers, every cell holding a nonzero value has an empty
candidate list, and the cached possibility count equals the cardinality of
the candidate set. -/
theorem recompute_candidate_invariant (g : Grid) (hg : ∀ r c, g r c ≤ 9)
    (r c : Fin 9) :
    (g r c = 0 →
      (findPossibleValues g r c).toFinset =
        Finset.Icc 1 9 \
          (((Finset.univ : Finset (Fin 9 × Fin 9)).filter
              (fun p => constrainingLocations r c p.1 p.2 = true)).image
            (fun p => g p.1 p.2)).filter (fun v => v ≠ 0))
    ∧ (g r c ≠ 0 → findPossibleValues g r c = [])
    ∧ possibilities g r c = (findPossibleValues g r c).toFinset.card := by
  refine ⟨?_, ?_, possibilities_eq_card g r c⟩
  · intro h0
    have hnot : g r c ∉ oneTo9 := by
      rw [mem_oneTo9]; omega
    ext v
    simp only [List.mem_toFinset, mem_findPossibleValues hnot, mem_oneTo9,
      Finset.mem_sdiff, Finset.mem_Icc, Finset.mem_filter, Finset.mem_image,
      Finset.mem_univ, true_and]
    constructor
    · rintro ⟨⟨h1, h9⟩, hpeers⟩
      refine ⟨⟨h1, h9⟩, ?_⟩
      rintro ⟨⟨⟨i, j⟩, hc, hv⟩, _⟩
      exact hpeers i j hc hv
    · rintro ⟨⟨h1, h9⟩, hno⟩
      refine ⟨⟨h1, h9⟩, ?_⟩
      intro i j hc hv
      exact hno ⟨⟨(i, j), hc, hv⟩, by omega⟩
  · intro hne
    apply findPossibleValues_filled
    rw [mem_oneTo9]
    have := hg r c
    omega

/-- Witness for C2 at the all-zero grid. -/
theorem recompute_candidate_invariant_witness :
    (∀ r c, zeroGrid r c ≤ 9) ∧
      ((zeroGrid 0 0 = 0 →
        (findPossibleValues zeroGrid 0 0).toFinset =
          Finset.Icc 1 9 \
            (((Finset.univ : Finset (Fin 9 × Fin 9)).filter
                (fun p => constrainingLocations 0 0 p.1 p.2 = true)).image
              (fun p => zeroGrid p.1 p.2)).filter (fun v => v ≠ 0))
      ∧ (zeroGrid 0 0 ≠ 0 → findPossibleValues zeroGrid 0 0 = [])
      ∧ possibilities zeroGrid 0 0 = (findPossibleValues zeroGrid 0 0).toFinset.card) :=
  ⟨by decide, recompute_candidate_invariant zeroGrid (by decide) 0 0⟩

-- the nine rows, columns and 3x3 regions of the solution grid, as value
-- lists in the order the source scans them (_rows, _columns, _regions)

def rowList (g : Grid) (i : Fin 9) : List ℕ :=
  (List.finRange 9).map (fun j => g i j)

def colList (g : Grid) (j : Fin 9) : List ℕ :=
  (List.finRange 9).map (fun i => g i j)

-- _region_row_range(region_number): the three rows meeting region k,
-- starting at 3*(k / 3)
def regionRowRange (k : Fin 9) : List (Fin 9) :=
  [⟨3 * (k.val / 3), by have := k.isLt; omega⟩,
   ⟨3 * (k.val / 3) + 1, by have := k.isLt; omega⟩,
   ⟨3 * (k.val / 3) + 2, by have := k.isLt; omega⟩]

-- _region_column_range(region_number): the three columns meeting region k,
-- starting at 3*(k % 3)
def regionColRange (k : Fin 9) : List (Fin 9) :=
  [⟨3 * (k.val % 3), by have := k.isLt; omega⟩,
   ⟨3 * (k.val % 3) + 1, by have := k.isLt; omega⟩,
   ⟨3 * (k.val % 3) + 2, by have := k.isLt; omega⟩]

-- the nine cells of region k in row-major order (the order produced both by
-- the slicing in _regions and by the loops over the range helpers)
def regionLocs (k : Fin 9) : List (Fin 9 × Fin 9) :=
  (regionRowRange k).flatMap (fun r => (regionColRange k).map (fun c => (r, c)))

def regionList (g : Grid) (k : Fin 9) : List ℕ :=
  (regionLocs k).map (fun p => g p.1 p.2)

-- the per-unit body of _valid_solution: every entry is 1-9 and occurs at
-- most once in the unit (the source inlines this three times)
def unitOk (lst : List ℕ) : Bool :=
  lst.all (fun entry => decide (entry ∈ oneTo9) && decide (List.count entry lst ≤ 1))

-- _valid_solution from sudoku.py: check rows, then columns, then regions
def validSolution (g : Grid) : Bool :=
  (((List.finRange 9).all fun i => unitOk (rowList g i)) &&
    ((List.finRange 9).all fun j => unitOk (colList g j))) &&
  ((List.finRange 9).all fun k => unitOk (regionList g k))

-- valid_sudoku_solution from sudoku_solver.py: the same checks in the same
-- order on a bare grid argument
def validSudokuSolution (data : Grid) : Bool :=
  (((List.finRange 9).all fun i => unitOk (rowList data i)) &&
    ((List.finRange 9).all fun j => unitOk (colList data j))) &&
  ((List.finRange 9).all fun k => unitOk (regionList data k))

lemma unitOk_iff (lst : List ℕ) :
    unitOk lst = true ↔ (∀ v ∈ lst, v ∈ oneTo9) ∧ lst.Nodup := by
  unfold unitOk
  rw [List.all_eq_true]
  constructor
  · intro h
    constructor
    · intro v hv
      have := h v hv
      simp only [Bool.and_eq_true, decide_eq_true_eq] at this
      exact this.1
    · rw [List.nodup_iff_count_le_one]
      intro a
      by_cases ha : a ∈ lst
      · have := h a ha
        simp only [Bool.and_eq_true, decide_eq_true_eq] at this
        exact this.2
      · rw [List.count_eq_zero_of_not_mem ha]
        omega
  · rintro ⟨hmem, hnd⟩
    intro v hv
    simp only [Bool.and_eq_true, decide_eq_true_eq]
    exact ⟨hmem v hv, List.nodup_iff_count_le_one.mp hnd v⟩

lemma validSolution_iff (g : Grid) :
    validSolution g = true ↔
      (∀ r c, 1 ≤ g r c ∧ g r c ≤ 9) ∧ (∀ i, (rowList g i).Nodup) ∧
        (∀ j, (colList g j).Nodup) ∧ (∀ k, (regionList g k).Nodup) := by
  unfold validSolution
  simp only [Bool.and_eq_true, List.all_eq_true, unitOk_iff, List.mem_finRange,
    true_implies]
  constructor
  · rintro ⟨⟨hrow, hcol⟩, hreg⟩
    refine ⟨?_, fun i => (hrow i).2, fun j => (hcol j).2, fun k => (hreg k).2⟩
    intro r c
    have hmem : g r c ∈ rowList g r := List.mem_map.mpr ⟨c, List.mem_finRange c, rfl⟩
    exact mem_oneTo9.mp ((hrow r).1 (g r c) hmem)
  · rintro ⟨hrange, hrow, hcol, hreg⟩
    have hvals : ∀ lst : List ℕ, (∀ v ∈ lst, ∃ r c, v = g r c) → ∀ v ∈ lst, v ∈ oneTo9 := by
      intro lst hof v hv
      rcases hof v hv with ⟨r, c, rfl⟩
      exact mem_oneTo9.mpr (hrange r c)
    refine ⟨⟨fun i => ⟨?_, hrow i⟩, fun j => ⟨?_, hcol j⟩⟩, fun k => ⟨?_, hreg k⟩⟩
    · apply hvals
      intro v hv
      rcases List.mem_map.mp hv with ⟨c, _, rfl⟩
      exact ⟨i, c, rfl⟩
    · apply hvals
      intro v hv
      rcases List.mem_map.mp hv with ⟨r, _, rfl⟩
      exact ⟨r, j, rfl⟩
    · apply hvals
      intro v hv
      rcases List.mem_map.mp hv with ⟨p, _, rfl⟩
      exact ⟨p.1, p.2, rfl⟩

/-- C3: the validator returns true exactly when every cell is in [1,9] and
no row, column or 3x3 region repeats a value; in particular any cell equal
to 0 or any duplicate inside a unit makes it false. The standalone
valid_sudoku_solution of sudoku_solver.py computes the same predicate. -/
theorem validator_correct (g : Grid) :
    (validSolution g = true ↔
      (∀ r c, 1 ≤ g r c ∧ g r c ≤ 9) ∧ (∀ i, (rowList g i).Nodup) ∧
        (∀ j, (colList g j).Nodup) ∧ (∀ k, (regionList g k).Nodup))
    ∧ validSudokuSolution g = validSolution g :=
  ⟨validSolution_iff g, rfl⟩

-- _unique_choice: one iteration of the accumulation loops. The source runs
-- the same body twice, first over the sets of size 1 and then over the sets
-- of size 2, threading sets_in_union and union_of_sets through both loops;
-- an early `return False` is modelled by freezing the state once ok turns
-- false. Python's set(l) is l.toFinset.
def ucStep (size : ℕ) (st : ℕ × Finset ℕ × Bool) (l : List ℕ) : ℕ × Finset ℕ × Bool :=
  if st.2.2 = false then st
  else if l.toFinset.card = size then
    ((st.1 + 1), (st.2.1 ∪ l.toFinset),
      decide (¬((st.2.1 ∪ l.toFinset).card < st.1 + 1)))
  else st

-- _unique_choice(list_of_lists)
def uniqueChoice (lists : List (List ℕ)) : Bool :=
  if lists.any (fun l => decide (l.toFinset.card = 0)) then false
  else
    (lists.foldl (ucStep 2) (lists.foldl (ucStep 1) (0, ∅, true))).2.2

-- the candidate lists of the empty locations of a row, of a region and of a
-- column, in scan order (the three list comprehensions in _puzzle_solvable)

def rowLists (g : Grid) (row : Fin 9) : List (List ℕ) :=
  ((List.finRange 9).filter (fun column => decide (g row column = 0))).map
    (fun column => findPossibleValues g row column)

def regionLists (g : Grid) (k : Fin 9) : List (List ℕ) :=
  ((regionLocs k).filter (fun p => decide (g p.1 p.2 = 0))).map
    (fun p => findPossibleValues g p.1 p.2)

def colLists (g : Grid) (column : Fin 9) : List (List ℕ) :=
  ((List.finRange 9).filter (fun row => decide (g row column = 0))).map
    (fun row => findPossibleValues g row column)

-- _puzzle_solvable: rows, then regions, then columns must all pass
def puzzleSolvable (g : Grid) : Bool :=
  (((List.finRange 9).all fun row => uniqueChoice (rowLists g row)) &&
    ((List.finRange 9).all fun k => uniqueChoice (regionLists g k))) &&
  ((List.finRange 9).all fun column => uniqueChoice (colLists g column))

lemma bool_eq_of_iff {a b : Bool} (h : a = true ↔ b = true) : a = b := by
  cases a <;> cases b <;> simp_all

lemma foldl_filter_skip {α β : Type} (p : β → Bool) (f : α → β → α) (l : List β)
    (h : ∀ a b, p b = false → f a b = a) :
    ∀ a, l.foldl f a = (l.filter p).foldl f a := by
  induction l with
  | nil => intro a; rfl
  | cons x xs ih =>
    intro a
    by_cases hx : p x = true
    · simp [hx, ih]
    · rw [Bool.not_eq_true] at hx
      simp [hx, h a x hx, ih]

lemma ucStep_skip (size : ℕ) (hsize : size = 1 ∨ size = 2)
    (st : ℕ × Finset ℕ × Bool) (l : List ℕ)
    (h : (decide (l.toFinset.card ≤ 2) : Bool) = false) : ucStep size st l = st := by
  simp only [decide_eq_false_iff_not, not_le] at h
  unfold ucStep
  by_cases hok : st.2.2 = false
  · simp [hok]
  · have hne : ¬(l.toFinset.card = size) := by omega
    simp [hok, hne]

lemma uniqueChoice_filter (lists : List (List ℕ)) :
    uniqueChoice lists =
      uniqueChoice (lists.filter (fun l => decide (l.toFinset.card ≤ 2))) := by
  unfold uniqueChoice
  have hany : lists.any (fun l => decide (l.toFinset.card = 0)) =
      (lists.filter (fun l => decide (l.toFinset.card ≤ 2))).any
        (fun l => decide (l.toFinset.card = 0)) := by
    apply bool_eq_of_iff
    simp only [List.any_eq_true, List.mem_filter, decide_eq_true_eq]
    constructor
    · rintro ⟨l, hl, hc⟩
      exact ⟨l, ⟨hl, by omega⟩, hc⟩
    · rintro ⟨l, ⟨hl, _⟩, hc⟩
      exact ⟨l, hl, hc⟩
  rw [hany,
    foldl_filter_skip (fun l => decide (l.toFinset.card ≤ 2)) (ucStep 1) lists
      (fun a b => ucStep_skip 1 (Or.inl rfl) a b),
    foldl_filter_skip (fun l => decide (l.toFinset.card ≤ 2)) (ucStep 2) lists
      (fun a b => ucStep_skip 2 (Or.inr rfl) a b)]

lemma uniqueChoice_big_sets (lists : List (List ℕ))
    (h : ∀ l ∈ lists, 3 ≤ l.toFinset.card) : uniqueChoice lists = true := by
  rw [uniqueChoice_filter]
  have hnil : lists.filter (fun l => decide (l.toFinset.card ≤ 2)) = [] := by
    rw [List.filter_eq_nil_iff]
    intro l hl
    have := h l hl
    simp only [decide_eq_true_eq]
    omega
  rw [hnil]
  rfl

/-- C1: the feasibility check fails exactly when one of the 27 units (rows,
regions, columns) fails _unique_choice, whose three rules are: an empty
candidate set, a singleton-accumulation union falling short of its count,
or the continued pair-accumulation union falling short of the running
count. Candidate sets with three or more distinct members are transparent
to the check, so they never cause infeasibility. -/
theorem feasibility_characterization (g : Grid) (lists : List (List ℕ)) :
    (puzzleSolvable g = false ↔
      (∃ row, uniqueChoice (rowLists g row) = false) ∨
        (∃ k, uniqueChoice (regionLists g k) = false) ∨
        (∃ column, uniqueChoice (colLists g column) = false))
    ∧ uniqueChoice lists =
        uniqueChoice (lists.filter (fun l => decide (l.toFinset.card ≤ 2)))
    ∧ ((∀ l ∈ lists, 3 ≤ l.toFinset.card) → uniqueChoice lists = true) := by
  refine ⟨?_, uniqueChoice_filter lists, uniqueChoice_big_sets lists⟩
  unfold puzzleSolvable
  constructor
  · intro h
    by_contra hcon
    push_neg at hcon
    rcases hcon with ⟨h1, h2, h3⟩
    have hall : ∀ (u : Fin 9 → Bool), (∀ i, u i ≠ false) →
        ((List.finRange 9).all fun i => u i) = true := by
      intro u hu
      rw [List.all_eq_true]
      intro i _
      cases hui : u i
      · exact absurd hui (hu i)
      · rfl
    have e1 := hall _ (fun row h => (h1 row) h)
    have e2 := hall _ (fun k h => (h2 k) h)
    have e3 := hall _ (fun column h => (h3 column) h)
    rw [e1, e2, e3] at h
    simp at h
  · intro h
    rcases h with ⟨row, hrow⟩ | ⟨k, hk⟩ | ⟨column, hcol⟩
    · have : ¬(((List.finRange 9).all fun row => uniqueChoice (rowLists g row)) = true) := by
        rw [List.all_eq_true]
        intro hall
        have := hall row (List.mem_finRange row)
        rw [hrow] at this
        cases this
      cases hv : ((List.finRange 9).all fun row => uniqueChoice (rowLists g row)) &&
          ((List.finRange 9).all fun k => uniqueChoice (regionLists g k)) &&
          ((List.finRange 9).all fun column => uniqueChoice (colLists g column))
      · rfl
      · rw [Bool.and_eq_true, Bool.and_eq_true] at hv
        exact absurd hv.1.1 this
    · have : ¬(((List.finRange 9).all fun k => uniqueChoice (regionLists g k)) = true) := by
        rw [List.all_eq_true]
        intro hall
        have := hall k (List.mem_finRange k)
        rw [hk] at this
        cases this
      cases hv : ((List.finRange 9).all fun row => uniqueChoice (rowLists g row)) &&
          ((List.finRange 9).all fun k => uniqueChoice (regionLists g k)) &&
          ((List.finRange 9).all fun column => uniqueChoice (colLists g column))
      · rfl
      · rw [Bool.and_eq_true, Bool.and_eq_true] at hv
        exact absurd hv.1.2 this
    · have : ¬(((List.finRange 9).all fun column => uniqueChoice (colLists g column)) = true) := by
        rw [List.all_eq_true]
        intro hall
        have := hall column (List.mem_finRange column)
        rw [hcol] at this
        cases this
      cases hv : ((List.finRange 9).all fun row => uniqueChoice (rowLists g row)) &&
          ((List.finRange 9).all fun k => uniqueChoice (regionLists g k)) &&
          ((List.finRange 9).all fun column => uniqueChoice (colLists g column))
      · rfl
      · rw [Bool.and_eq_true, Bool.and_eq_true] at hv
        exact absurd hv.2 this

/-- Witness for C1: the all-zero grid and a list family whose members all
have at least three distinct values. -/
theorem feasibility_characterization_witness :
    ((puzzleSolvable zeroGrid = false ↔
      (∃ row, uniqueChoice (rowLists zeroGrid row) = false) ∨
        (∃ k, uniqueChoice (regionLists zeroGrid k) = false) ∨
        (∃ column, uniqueChoice (colLists zeroGrid column) = false))
    ∧ uniqueChoice [[1, 2, 3]] =
        uniqueChoice ([[1, 2, 3]].filter (fun l => decide (l.toFinset.card ≤ 2)))
    ∧ ((∀ l ∈ [[1, 2, 3]], 3 ≤ l.toFinset.card) → uniqueChoice [[1, 2, 3]] = true))
    ∧ (∀ l ∈ [[1, 2, 3]], 3 ≤ l.toFinset.card) :=
  ⟨feasibility_characterization zeroGrid [[1, 2, 3]], by decide⟩

-- the snapshot of the cached _possible_values table after an update; the
-- solver passes read this stale snapshot while mutating the solution grid
abbrev PV := Fin 9 → Fin 9 → List ℕ

def pvOf (g : Grid) : PV := fun r c => findPossibleValues g r c

-- the locations of a row and of a column in scan order
def rowLocs (row : Fin 9) : List (Fin 9 × Fin 9) :=
  (List.finRange 9).map (fun column => (row, column))

def colLocs (column : Fin 9) : List (Fin 9 × Fin 9) :=
  (List.finRange 9).map (fun row => (row, column))

-- solve, first pass: enter numbers in locations that have only one
-- possible value (the cached _possibilities entry is the list length)
def nakedPass (pv : PV) (s : Grid × Bool) : Grid × Bool :=
  allLocs.foldl
    (fun s2 p =>
      if (pv p.1 p.2).length = 1 then
        (setCell s2.1 p.1 p.2 (pv p.1 p.2).headI, true)
      else s2)
    s

-- the inner assignment loop of a hidden-single pass: put `number` at every
-- location of the unit whose (stale) candidate list contains it
def hiddenAssign (pv : PV) (number : ℕ) (locs : List (Fin 9 × Fin 9))
    (s : Grid × Bool) : Grid × Bool :=
  locs.foldl
    (fun s2 p =>
      if number ∈ pv p.1 p.2 then (setCell s2.1 p.1 p.2 number, s2.2) else s2)
    s

-- one unit of a hidden-single pass: build the concatenated candidate list
-- of the unit, then for each number occurring exactly once set keep_going
-- and assign it at its unique location
def hiddenUnitPass (pv : PV) (locs : List (Fin 9 × Fin 9))
    (s : Grid × Bool) : Grid × Bool :=
  (List.range' 1 9).foldl
    (fun s2 number =>
      if List.count number (locs.flatMap (fun p => pv p.1 p.2)) = 1 then
        hiddenAssign pv number locs (s2.1, true)
      else s2)
    s

def regionsPass (pv : PV) (s : Grid × Bool) : Grid × Bool :=
  (List.finRange 9).foldl (fun s2 k => hiddenUnitPass pv (regionLocs k) s2) s

def rowsPass (pv : PV) (s : Grid × Bool) : Grid × Bool :=
  (List.finRange 9).foldl (fun s2 row => hiddenUnitPass pv (rowLocs row) s2) s

def colsPass (pv : PV) (s : Grid × Bool) : Grid × Bool :=
  (List.finRange 9).foldl
    (fun s2 column => hiddenUnitPass pv (colLocs column) s2) s

-- one iteration of the `while keep_going` loop in solve: the four passes in
-- source order, each one reading the snapshot refreshed by the
-- _update_possible_values call that precedes it, with keep_going threaded
-- through and reset to False at the start of the round
def solveRound (g : Grid) : Grid × Bool :=
  let s1 := nakedPass (pvOf g) (g, false)
  let s2 := regionsPass (pvOf s1.1) s1
  let s3 := rowsPass (pvOf s2.1) s2
  let s4 := colsPass (pvOf s3.1) s3
  s4

-- the `while keep_going` loop itself; 82 rounds of fuel are enough to reach
-- the fixpoint (see solver_terminates)
def solveLoop : ℕ → Grid → Grid
  | 0, g => g
  | fuel + 1, g =>
    let s := solveRound g
    if s.2 = true then solveLoop fuel s.1 else s.1

-- the test `0 in self._solution`
def hasZero (g : Grid) : Bool :=
  allLocs.any (fun p => decide (g p.1 p.2 = 0))

-- the observable outcome of Sudoku.solve: the final solution grid, the
-- returned boolean, and which of the two failure messages was printed
-- (the infeasible message is printed unconditionally, the stuck message
-- only in verbose mode)
structure SolveResult where
  grid : Grid
  retval : Bool
  printedInfeasibleMsg : Bool
  printedStuckMsg : Bool

def solve (g : Grid) (verbose : Bool) : SolveResult :=
  if puzzleSolvable g = false then
    SolveResult.mk g false true false
  else
    let gFinal := solveLoop 82 g
    if hasZero gFinal = true then
      SolveResult.mk gFinal false false verbose
    else
      SolveResult.mk gFinal true false false

-- the set of locations whose entry is not a digit 1-9, and its size; on
-- grids with entries in [0,9] these are exactly the empty cells
def badSet (g : Grid) : Finset (Fin 9 × Fin 9) :=
  (Finset.univ : Finset (Fin 9 × Fin 9)).filter (fun p => g p.1 p.2 ∉ oneTo9)

def emptyCount (g : Grid) : ℕ := (badSet g).card

def roundIter : ℕ → Grid → Grid
  | 0, g => g
  | n + 1, g => roundIter n (solveRound g).1

lemma setCell_self (g : Grid) (r c : Fin 9) (v : ℕ) : setCell g r c v r c = v := by
  simp [setCell]

lemma setCell_other (g : Grid) (r c : Fin 9) (v : ℕ) {i j : Fin 9}
    (h : ¬(i = r ∧ j = c)) : setCell g r c v i j = g i j := by
  simp [setCell, h]

-- the invariant carried by every solver pass, relative to the grid and flag
-- the pass started from: range-valued cells are untouched, every change
-- writes a digit 1-9, and a freshly raised flag comes with a cell that went
-- from out-of-range (empty) to a digit
def RoundRel (g0 : Grid) (f0 : Bool) (s : Grid × Bool) : Prop :=
  (∀ r c, g0 r c ∈ oneTo9 → s.1 r c = g0 r c) ∧
  (∀ r c, s.1 r c = g0 r c ∨ s.1 r c ∈ oneTo9) ∧
  (s.2 = f0 ∨ (s.2 = true ∧ ∃ r c, g0 r c ∉ oneTo9 ∧ s.1 r c ∈ oneTo9))

lemma roundRel_refl (g0 : Grid) (f0 : Bool) : RoundRel g0 f0 (g0, f0) :=
  ⟨fun _ _ _ => rfl, fun _ _ => Or.inl rfl, Or.inl rfl⟩

lemma roundRel_refl2 (s : Grid × Bool) : RoundRel s.1 s.2 s :=
  ⟨fun _ _ _ => rfl, fun _ _ => Or.inl rfl, Or.inl rfl⟩

lemma roundRel_trans {g0 : Grid} {f0 : Bool} {s1 s2 : Grid × Bool}
    (h1 : RoundRel g0 f0 s1) (h2 : RoundRel s1.1 s1.2 s2) :
    RoundRel g0 f0 s2 := by
  obtain ⟨a1, b1, c1⟩ := h1
  obtain ⟨a2, b2, c2⟩ := h2
  refine ⟨?_, ?_, ?_⟩
  · intro r c hr
    have hg1 : s1.1 r c = g0 r c := a1 r c hr
    rw [a2 r c (by rw [hg1]; exact hr), hg1]
  · intro r c
    rcases b2 r c with h | h
    · rw [h]; exact b1 r c
    · exact Or.inr h
  · rcases c2 with h | ⟨hs, r, c, hbad, hgood⟩
    · rcases c1 with h1f | ⟨h1t, r, c, hbad, hgood⟩
      · exact Or.inl (h.trans h1f)
      · refine Or.inr ⟨h.trans h1t, r, c, hbad, ?_⟩
        rw [a2 r c hgood]
        exact hgood
    · refine Or.inr ⟨hs, r, c, ?_, hgood⟩
      rcases b1 r c with h | h
      · rwa [h] at hbad
      · exact absurd h hbad

lemma setCell_eq (g : Grid) (r c : Fin 9) (v : ℕ) {i j : Fin 9}
    (h : i = r ∧ j = c) : setCell g r c v i j = v := by
  obtain ⟨rfl, rfl⟩ := h
  exact setCell_self g i j v

lemma pvOf_eq (g : Grid) (r c : Fin 9) : pvOf g r c = findPossibleValues g r c := rfl

lemma foldl_preserve_mem {α β : Type} (P : α → Prop) (f : α → β → α) :
    ∀ l : List β, (∀ a b, b ∈ l → P a → P (f a b)) → ∀ a, P a → P (l.foldl f a) := by
  intro l
  induction l with
  | nil => intro _ a ha; simpa using ha
  | cons x xs ih =>
    intro h a ha
    exact ih (fun a2 b hb => h a2 b (List.mem_cons_of_mem x hb)) (f a x)
      (h a x (List.mem_cons_self x xs) ha)

lemma nakedPass_rel (g0 : Grid) (f0 : Bool) :
    RoundRel g0 f0 (nakedPass (pvOf g0) (g0, f0)) := by
  unfold nakedPass
  refine foldl_preserve (RoundRel g0 f0) _ allLocs ?_ (g0, f0) (roundRel_refl g0 f0)
  intro s p hs
  by_cases hc : (pvOf g0 p.1 p.2).length = 1
  case neg => rwa [if_neg hc]
  rw [if_pos hc]
  obtain ⟨x, hx⟩ := List.length_eq_one.mp hc
  have hmem : (pvOf g0 p.1 p.2).headI ∈ pvOf g0 p.1 p.2 := by
    rw [pvOf_eq] at hx ⊢
    rw [hx]
    simp
  have hvR : (pvOf g0 p.1 p.2).headI ∈ oneTo9 := findPossibleValues_sub_oneTo9 hmem
  have hbad : g0 p.1 p.2 ∉ oneTo9 := by
    apply findPossibleValues_ne_nil_empty
    rw [← pvOf_eq, hx]
    simp
  obtain ⟨a, b, _⟩ := hs
  refine ⟨?_, ?_, ?_⟩
  · intro r c hr
    have hne : ¬(r = p.1 ∧ c = p.2) := by
      rintro ⟨rfl, rfl⟩
      exact hbad hr
    show setCell s.1 p.1 p.2 (pvOf g0 p.1 p.2).headI r c = g0 r c
    rw [setCell_other _ _ _ _ hne]
    exact a r c hr
  · intro r c
    by_cases hrc : r = p.1 ∧ c = p.2
    · right
      show setCell s.1 p.1 p.2 (pvOf g0 p.1 p.2).headI r c ∈ oneTo9
      rw [setCell_eq _ _ _ _ hrc]
      exact hvR
    · show setCell s.1 p.1 p.2 (pvOf g0 p.1 p.2).headI r c = g0 r c ∨
        setCell s.1 p.1 p.2 (pvOf g0 p.1 p.2).headI r c ∈ oneTo9
      rw [setCell_other _ _ _ _ hrc]
      exact b r c
  · by_cases hf : f0 = true
    · exact Or.inl hf.symm
    · refine Or.inr ⟨rfl, p.1, p.2, hbad, ?_⟩
      show setCell s.1 p.1 p.2 (pvOf g0 p.1 p.2).headI p.1 p.2 ∈ oneTo9
      rw [setCell_self]
      exact hvR

lemma hiddenAssign_snd (pv : PV) (number : ℕ) (locs : List (Fin 9 × Fin 9))
    (s : Grid × Bool) : (hiddenAssign pv number locs s).2 = s.2 := by
  unfold hiddenAssign
  refine foldl_preserve (fun s2 => s2.2 = s.2) _ locs ?_ s rfl
  intro s2 p h2
  by_cases hc : number ∈ pv p.1 p.2
  · rw [if_pos hc]; exact h2
  · rwa [if_neg hc]

lemma hiddenAssign_write_or_id (pv : PV) (number : ℕ) (locs : List (Fin 9 × Fin 9))
    (s : Grid × Bool) (r c : Fin 9) :
    (hiddenAssign pv number locs s).1 r c = s.1 r c ∨
      (hiddenAssign pv number locs s).1 r c = number := by
  unfold hiddenAssign
  refine foldl_preserve
    (fun s2 => s2.1 r c = s.1 r c ∨ s2.1 r c = number) _ locs ?_ s (Or.inl rfl)
  intro s2 p h2
  by_cases hc : number ∈ pv p.1 p.2
  · rw [if_pos hc]
    by_cases hrc : r = p.1 ∧ c = p.2
    · right
      show setCell s2.1 p.1 p.2 number r c = number
      rw [setCell_eq _ _ _ _ hrc]
    · show setCell s2.1 p.1 p.2 number r c = s.1 r c ∨
        setCell s2.1 p.1 p.2 number r c = number
      rw [setCell_other _ _ _ _ hrc]
      exact h2
  · rwa [if_neg hc]

lemma hiddenAssign_fixed (g0 : Grid) (number : ℕ) (locs : List (Fin 9 × Fin 9))
    (s : Grid × Bool) (r c : Fin 9) (hr : g0 r c ∈ oneTo9) :
    (hiddenAssign (pvOf g0) number locs s).1 r c = s.1 r c := by
  unfold hiddenAssign
  refine foldl_preserve (fun s2 => s2.1 r c = s.1 r c) _ locs ?_ s rfl
  intro s2 p h2
  by_cases hc : number ∈ pvOf g0 p.1 p.2
  · rw [if_pos hc]
    have hne : ¬(r = p.1 ∧ c = p.2) := by
      intro hrc
      have hfp : findPossibleValues g0 p.1 p.2 ≠ [] := by
        rw [← pvOf_eq]
        intro hnil
        rw [hnil] at hc
        cases hc
      have hbadp : g0 p.1 p.2 ∉ oneTo9 := findPossibleValues_ne_nil_empty hfp
      obtain ⟨he1, he2⟩ := hrc
      rw [he1, he2] at hr
      exact hbadp hr
    show setCell s2.1 p.1 p.2 number r c = s.1 r c
    rw [setCell_other _ _ _ _ hne]
    exact h2
  · rwa [if_neg hc]

lemma hiddenAssign_writes (pv : PV) (number : ℕ) :
    ∀ (locs : List (Fin 9 × Fin 9)) (s : Grid × Bool) (p : Fin 9 × Fin 9),
      p ∈ locs → number ∈ pv p.1 p.2 →
      (hiddenAssign pv number locs s).1 p.1 p.2 = number := by
  intro locs
  induction locs with
  | nil =>
    intro s p hp
    cases hp
  | cons q qs ih =>
    intro s p hp hnum
    have hstep : hiddenAssign pv number (q :: qs) s
        = hiddenAssign pv number qs
            (if number ∈ pv q.1 q.2 then (setCell s.1 q.1 q.2 number, s.2) else s) := rfl
    rw [hstep]
    rcases List.mem_cons.mp hp with rfl | hmem
    · rcases hiddenAssign_write_or_id pv number qs
        (if number ∈ pv p.1 p.2 then (setCell s.1 p.1 p.2 number, s.2) else s)
        p.1 p.2 with h | h
      · rw [h, if_pos hnum]
        show setCell s.1 p.1 p.2 number p.1 p.2 = number
        rw [setCell_self]
      · exact h
    · exact ih _ p hmem hnum

lemma hiddenUnitPass_rel (g0 : Grid) (f0 : Bool) (locs : List (Fin 9 × Fin 9))
    (s : Grid × Bool) (hs : RoundRel g0 f0 s) :
    RoundRel g0 f0 (hiddenUnitPass (pvOf g0) locs s) := by
  unfold hiddenUnitPass
  refine foldl_preserve_mem (RoundRel g0 f0) _ (List.range' 1 9) ?_ s hs
  intro s2 number hnum hs2
  by_cases hc :
      List.count number (locs.flatMap (fun p => pvOf g0 p.1 p.2)) = 1
  case neg => rwa [if_neg hc]
  rw [if_pos hc]
  have hnumR : number ∈ oneTo9 := by
    rw [List.mem_range'_1] at hnum
    rw [mem_oneTo9]
    omega
  have hex : ∃ p ∈ locs, number ∈ pvOf g0 p.1 p.2 := by
    have hpos : 0 < List.count number (locs.flatMap (fun p => pvOf g0 p.1 p.2)) := by
      omega
    rcases List.mem_flatMap.mp (List.count_pos_iff.mp hpos) with ⟨p, hp, hnp⟩
    exact ⟨p, hp, hnp⟩
  obtain ⟨p0, hp0, hnum0⟩ := hex
  obtain ⟨a2, b2, _⟩ := hs2
  have hbad0 : g0 p0.1 p0.2 ∉ oneTo9 := by
    apply findPossibleValues_ne_nil_empty
    rw [pvOf_eq] at hnum0
    intro hnil
    rw [hnil] at hnum0
    cases hnum0
  have hgood0 : (hiddenAssign (pvOf g0) number locs (s2.1, true)).1 p0.1 p0.2
      = number :=
    hiddenAssign_writes (pvOf g0) number locs (s2.1, true) p0 hp0 hnum0
  refine ⟨?_, ?_, ?_⟩
  · intro r c hr
    rw [hiddenAssign_fixed g0 number locs (s2.1, true) r c hr]
    exact a2 r c hr
  · intro r c
    rcases hiddenAssign_write_or_id (pvOf g0) number locs (s2.1, true) r c
      with h | h
    · dsimp only at h
      rw [h]
      exact b2 r c
    · rw [h]
      exact Or.inr hnumR
  · have hflag : (hiddenAssign (pvOf g0) number locs (s2.1, true)).2 = true := by
      rw [hiddenAssign_snd]
    by_cases hf : f0 = true
    · exact Or.inl (by rw [hflag, hf])
    · refine Or.inr ⟨hflag, p0.1, p0.2, hbad0, ?_⟩
      rw [hgood0]
      exact hnumR

lemma regionsPass_rel (g0 : Grid) (f0 : Bool) (s : Grid × Bool)
    (hs : RoundRel g0 f0 s) : RoundRel g0 f0 (regionsPass (pvOf g0) s) := by
  unfold regionsPass
  exact foldl_preserve (RoundRel g0 f0) _ (List.finRange 9)
    (fun s2 k h => hiddenUnitPass_rel g0 f0 (regionLocs k) s2 h) s hs

lemma rowsPass_rel (g0 : Grid) (f0 : Bool) (s : Grid × Bool)
    (hs : RoundRel g0 f0 s) : RoundRel g0 f0 (rowsPass (pvOf g0) s) := by
  unfold rowsPass
  exact foldl_preserve (RoundRel g0 f0) _ (List.finRange 9)
    (fun s2 row h => hiddenUnitPass_rel g0 f0 (rowLocs row) s2 h) s hs

lemma colsPass_rel (g0 : Grid) (f0 : Bool) (s : Grid × Bool)
    (hs : RoundRel g0 f0 s) : RoundRel g0 f0 (colsPass (pvOf g0) s) := by
  unfold colsPass
  exact foldl_preserve (RoundRel g0 f0) _ (List.finRange 9)
    (fun s2 column h => hiddenUnitPass_rel g0 f0 (colLocs column) s2 h) s hs

lemma solveRound_rel (g : Grid) : RoundRel g false (solveRound g) := by
  simp only [solveRound]
  exact roundRel_trans (roundRel_trans (roundRel_trans (nakedPass_rel g false)
      (regionsPass_rel _ _ _ (roundRel_refl2 _)))
    (rowsPass_rel _ _ _ (roundRel_refl2 _)))
    (colsPass_rel _ _ _ (roundRel_refl2 _))

lemma mem_badSet {g : Grid} {p : Fin 9 × Fin 9} :
    p ∈ badSet g ↔ g p.1 p.2 ∉ oneTo9 := by
  simp [badSet]

lemma solveRound_progress (g : Grid) (h : (solveRound g).2 = true) :
    emptyCount (solveRound g).1 < emptyCount g := by
  obtain ⟨_, b, c⟩ := solveRound_rel g
  rcases c with hc | ⟨_, r, c0, hbad, hgood⟩
  · rw [h] at hc
    cases hc
  · apply Finset.card_lt_card
    have hsub : badSet (solveRound g).1 ⊆ badSet g := by
      intro p hp
      rw [mem_badSet] at hp ⊢
      rcases b p.1 p.2 with hb | hb
      · rw [← hb]
        exact hp
      · exact absurd hb hp
    rw [Finset.ssubset_iff_of_subset hsub]
    refine ⟨(r, c0), ?_, ?_⟩
    · rw [mem_badSet]
      dsimp only
      exact hbad
    · intro hm
      rw [mem_badSet] at hm
      dsimp only at hm
      exact hm hgood

lemma emptyCount_le_81 (g : Grid) : emptyCount g ≤ 81 := by
  unfold emptyCount badSet
  calc ((Finset.univ : Finset (Fin 9 × Fin 9)).filter
      (fun p => g p.1 p.2 ∉ oneTo9)).card
      ≤ (Finset.univ : Finset (Fin 9 × Fin 9)).card := Finset.card_filter_le _ _
    _ = 81 := by simp

lemma fixpoint_within :
    ∀ (k : ℕ) (g : Grid), emptyCount g ≤ k →
      ∃ n, n ≤ k ∧ (solveRound (roundIter n g)).2 = false := by
  intro k
  induction k with
  | zero =>
    intro g hg
    refine ⟨0, le_refl 0, ?_⟩
    cases hflag : (solveRound g).2
    · exact hflag
    · have := solveRound_progress g hflag
      omega
  | succ k ih =>
    intro g hg
    cases hflag : (solveRound g).2
    · exact ⟨0, Nat.zero_le _, hflag⟩
    · have hlt := solveRound_progress g hflag
      obtain ⟨n, hn, hfix⟩ := ih (solveRound g).1 (by omega)
      exact ⟨n + 1, Nat.succ_le_succ hn, hfix⟩

/-- C4: the solver's round loop terminates on every input grid: a round
that raises the keep_going flag fills at least one cell that was empty
(out of range 1-9) at the start of the round with a digit, so the count of
such cells strictly decreases on every progressing round, and within 82
rounds (the flag is false after at most 81 progressing rounds) the loop
reaches its fixpoint. On grids with entries in [0,9] the measure is
exactly the number of empty (zero) cells. -/
theorem solver_terminates (g : Grid) :
    ((solveRound g).2 = true →
      (∃ r c, g r c ∉ oneTo9 ∧ (solveRound g).1 r c ∈ oneTo9)
        ∧ emptyCount (solveRound g).1 < emptyCount g)
    ∧ (∃ n, n ≤ 81 ∧ (solveRound (roundIter n g)).2 = false)
    ∧ ((∀ r c, g r c ≤ 9) →
        emptyCount g = ((Finset.univ : Finset (Fin 9 × Fin 9)).filter
          (fun p => g p.1 p.2 = 0)).card) := by
  refine ⟨?_, fixpoint_within 81 g (emptyCount_le_81 g), ?_⟩
  · intro h
    obtain ⟨_, _, c⟩ := solveRound_rel g
    rcases c with hc | ⟨_, r, c0, hbad, hgood⟩
    · rw [h] at hc
      cases hc
    · exact ⟨⟨r, c0, hbad, hgood⟩, solveRound_progress g h⟩
  · intro hrange
    unfold emptyCount badSet
    congr 1
    apply Finset.filter_congr
    intro p _
    rw [mem_oneTo9]
    have := hrange p.1 p.2
    constructor
    · intro hnot
      omega
    · intro h0
      omega

lemma solveLoop_fixed :
    ∀ (fuel : ℕ) (g : Grid) (r c : Fin 9), g r c ∈ oneTo9 →
      solveLoop fuel g r c = g r c := by
  intro fuel
  induction fuel with
  | zero => intro g r c _; rfl
  | succ fuel ih =>
    intro g r c hr
    obtain ⟨a, _, _⟩ := solveRound_rel g
    have hkeep := a r c hr
    have hstep : solveLoop (fuel + 1) g
        = if (solveRound g).2 = true then solveLoop fuel (solveRound g).1
          else (solveRound g).1 := rfl
    rw [hstep]
    by_cases hf : (solveRound g).2 = true
    · rw [if_pos hf, ih (solveRound g).1 r c (by rw [hkeep]; exact hr), hkeep]
    · rw [if_neg hf, hkeep]

lemma solve_preserves_range (g : Grid) (vb : Bool) (r c : Fin 9)
    (hr : g r c ∈ oneTo9) : (solve g vb).grid r c = g r c := by
  have hloop := solveLoop_fixed 82 g r c hr
  unfold solve
  split
  · rfl
  · dsimp only
    split
    · dsimp only
      exact hloop
    · dsimp only
      exact hloop

-- concrete grids used to settle the scenario claims

-- two 5s in row 0 (cells (0,0) and (0,1)), every other cell empty: the
-- scenario grid of the duplicate-clue claim
def gTwoFives : Grid := fun r c =>
  if r.val = 0 ∧ (c.val = 0 ∨ c.val = 1) then 5 else 0

-- row 0 holds 1..8 with its last cell empty, and a 9 sits below that cell
-- at (1,8): cell (0,8) is left with no candidate, so the feasibility check
-- fails on row 0
def gNoCandidate : Grid := fun r c =>
  if r.val = 0 then (if c.val = 8 then 0 else c.val + 1)
  else if r.val = 1 ∧ c.val = 8 then 9 else 0

-- six 5s placed so that, in the candidate snapshot, 5 is a hidden single
-- of region 0 at cell (0,0) and simultaneously of region 1 at cell (0,3):
-- the region pass of one round writes 5 into both cells of row 0
def gHidden : Grid := fun r c =>
  if (r.val = 1 ∧ c.val = 8) ∨ (r.val = 2 ∧ c.val = 7) ∨
      (r.val = 4 ∧ c.val = 1) ∨ (r.val = 4 ∧ c.val = 2) ∨
      (r.val = 5 ∧ c.val = 4) ∨ (r.val = 5 ∧ c.val = 5) then 5 else 0

set_option maxHeartbeats 16000000 in
lemma gTwoFives_facts :
    puzzleSolvable gTwoFives = true ∧
    validSolution gTwoFives = false ∧
    (solve gTwoFives false).retval = false ∧
    (solve gTwoFives false).printedInfeasibleMsg = false ∧
    (solve gTwoFives false).printedStuckMsg = false ∧
    hasZero (solve gTwoFives false).grid = true := by
  decide

set_option maxHeartbeats 16000000 in
lemma gHidden_facts :
    puzzleSolvable gHidden = true ∧
    gHidden 0 0 = 0 ∧ gHidden 0 3 = 0 ∧
    List.count 5 (rowList gHidden 0) = 0 ∧
    (solveRound gHidden).2 = true ∧
    (solveRound gHidden).1 0 0 = 5 ∧
    (solveRound gHidden).1 0 3 = 5 ∧
    2 ≤ List.count 5 (rowList (solveRound gHidden).1 0) := by
  decide

set_option maxHeartbeats 4000000 in
lemma gNoCandidate_facts :
    puzzleSolvable gNoCandidate = false ∧
    (solve gNoCandidate false).retval = false ∧
    (solve gNoCandidate false).printedInfeasibleMsg = true ∧
    (∀ r c, gNoCandidate r c ≤ 9) := by
  decide

set_option maxHeartbeats 8000000 in
lemma zeroGrid_solvable : puzzleSolvable zeroGrid = true := by
  decide

/-- C5 (amended): when the feasibility pre-check fails, solve returns
immediately: no deduction round runs, no cell is assigned (the returned
grid is the input grid), and the distinct infeasible message is printed;
but the value returned to the caller is False, the same value the stuck
outcome returns, so the two outcomes are distinguishable only through the
printed messages, not through the returned value. -/
theorem infeasible_short_circuit (g : Grid) (vb : Bool)
    (h : puzzleSolvable g = false) :
    solve g vb = SolveResult.mk g false true false := by
  unfold solve
  rw [if_pos h]

/-- Witness for C5 at the concrete infeasible grid gNoCandidate. -/
theorem infeasible_short_circuit_witness :
    puzzleSolvable gNoCandidate = false ∧
    solve gNoCandidate false = SolveResult.mk gNoCandidate false true false :=
  ⟨gNoCandidate_facts.1, infeasible_short_circuit gNoCandidate false gNoCandidate_facts.1⟩

/-- C5 counterexample: the infeasible outcome (at gNoCandidate) and the
stuck outcome (at gTwoFives, which passes the pre-check and stalls with
empty cells left) hand the caller the same returned value False, so the
caller cannot distinguish them from the returned value. -/
theorem infeasible_vs_stuck_same_retval :
    puzzleSolvable gNoCandidate = false ∧
    puzzleSolvable gTwoFives = true ∧
    hasZero (solve gTwoFives false).grid = true ∧
    (solve gTwoFives false).printedInfeasibleMsg = false ∧
    (solve gNoCandidate false).retval = (solve gTwoFives false).retval := by
  refine ⟨gNoCandidate_facts.1, gTwoFives_facts.1,
    gTwoFives_facts.2.2.2.2.2, gTwoFives_facts.2.2.2.1, ?_⟩
  rw [gNoCandidate_facts.2.1, gTwoFives_facts.2.2.1]

/-- C6 counterexample: the grid whose only clues are two 5s in row 0
passes the feasibility pre-check, and the solver reaches the stuck
outcome (propagation fixpoint with empty cells left, no infeasible
message), not the infeasible one. -/
theorem two_fives_not_infeasible :
    gTwoFives 0 0 = 5 ∧ gTwoFives 0 1 = 5 ∧
    puzzleSolvable gTwoFives = true ∧
    (solve gTwoFives false).printedInfeasibleMsg = false ∧
    (solve gTwoFives false).retval = false ∧
    hasZero (solve gTwoFives false).grid = true :=
  ⟨by decide, by decide, gTwoFives_facts.1, gTwoFives_facts.2.2.2.1,
    gTwoFives_facts.2.2.1, gTwoFives_facts.2.2.2.2.2⟩

/-- C6 (amended): a grid containing the value 5 in two distinct cells of
one row always fails the validator; but the solver does not return the
infeasible outcome on such a grid: on the scenario grid gTwoFives the
pre-check passes (it only inspects empty cells' candidate sets) and the
solver reports the stuck outcome. -/
theorem two_fives_validator_and_stuck (g : Grid) (r c1 c2 : Fin 9)
    (hne : c1 ≠ c2) (h1 : g r c1 = 5) (h2 : g r c2 = 5) :
    validSolution g = false ∧
    (puzzleSolvable gTwoFives = true ∧
      (solve gTwoFives false).retval = false ∧
      (solve gTwoFives false).printedInfeasibleMsg = false ∧
      hasZero (solve gTwoFives false).grid = true) := by
  refine ⟨?_, gTwoFives_facts.1, gTwoFives_facts.2.2.1,
    gTwoFives_facts.2.2.2.1, gTwoFives_facts.2.2.2.2.2⟩
  cases hv : validSolution g
  · rfl
  · exfalso
    have hchar := (validSolution_iff g).mp hv
    have hnd : (rowList g r).Nodup := hchar.2.1 r
    have hinj := List.inj_on_of_nodup_map hnd
    exact hne (hinj (List.mem_finRange c1) (List.mem_finRange c2)
      (by rw [h1, h2]))

/-- Witness for C6 (amended) at gTwoFives with the duplicate at columns 0
and 1 of row 0. -/
theorem two_fives_validator_and_stuck_witness :
    ((0 : Fin 9) ≠ 1 ∧ gTwoFives 0 0 = 5 ∧ gTwoFives 0 1 = 5) ∧
    (validSolution gTwoFives = false ∧
      (puzzleSolvable gTwoFives = true ∧
        (solve gTwoFives false).retval = false ∧
        (solve gTwoFives false).printedInfeasibleMsg = false ∧
        hasZero (solve gTwoFives false).grid = true)) :=
  ⟨⟨by decide, by decide, by decide⟩,
    two_fives_validator_and_stuck gTwoFives 0 0 1 (by decide) (by decide) (by decide)⟩

/-- C7: wherever the puzzle grid holds a nonzero clue, running the solver
on a solution grid agreeing with the puzzle leaves that value in place:
every cell the round passes change was out of range 1-9 (empty) before the
change, so no clue cell (which holds a digit 1-9) is ever overwritten; and
for any grid whose solution was just reset to the puzzle itself (puzzle
load, generation stage B), every digit cell survives solve unchanged. -/
theorem puzzle_values_preserved (p g : Grid) (vb : Bool)
    (hinv : ∀ r c, p r c ≠ 0 → g r c = p r c) (hp : ∀ r c, p r c ≤ 9) :
    (∀ r c, p r c ≠ 0 → (solve g vb).grid r c = p r c) ∧
    (∀ r c, (solveRound g).1 r c ≠ g r c → g r c ∉ oneTo9) ∧
    (∀ q : Grid, ∀ r c, q r c ∈ oneTo9 → (solve q vb).grid r c = q r c) := by
  refine ⟨?_, ?_, fun q r c hq => solve_preserves_range q vb r c hq⟩
  · intro r c hne
    have hrange : g r c ∈ oneTo9 := by
      rw [hinv r c hne, mem_oneTo9]
      have := hp r c
      omega
    rw [solve_preserves_range g vb r c hrange, hinv r c hne]
  · intro r c hne hr
    obtain ⟨a, _, _⟩ := solveRound_rel g
    exact hne (a r c hr)

/-- Witness for C7 with the puzzle and the solution both gNoCandidate. -/
theorem puzzle_values_preserved_witness :
    ((∀ r c, gNoCandidate r c ≠ 0 → gNoCandidate r c = gNoCandidate r c) ∧
      (∀ r c, gNoCandidate r c ≤ 9)) ∧
    ((∀ r c, gNoCandidate r c ≠ 0 →
        (solve gNoCandidate false).grid r c = gNoCandidate r c) ∧
      (∀ r c, (solveRound gNoCandidate).1 r c ≠ gNoCandidate r c →
        gNoCandidate r c ∉ oneTo9) ∧
      (∀ q : Grid, ∀ r c, q r c ∈ oneTo9 →
        (solve q false).grid r c = q r c)) :=
  ⟨⟨fun _ _ _ => rfl, gNoCandidate_facts.2.2.2⟩,
    puzzle_values_preserved gNoCandidate gNoCandidate false
      (fun _ _ _ => rfl) gNoCandidate_facts.2.2.2⟩

/-- C8 counterexample: no ConstraintViolation check exists on assignment.
At gHidden the feasibility check passes, cells (0,0) and (0,3) of row 0
are both empty, and one solver round silently writes the value 5 into
both of them, introducing a duplicate 5 into row 0 with no error of any
kind. -/
theorem assignment_unchecked_counterexample :
    gHidden 0 0 = 0 ∧ gHidden 0 3 = 0 ∧
    puzzleSolvable gHidden = true ∧
    (solveRound gHidden).1 0 0 = 5 ∧
    (solveRound gHidden).1 0 3 = 5 :=
  ⟨gHidden_facts.2.1, gHidden_facts.2.2.1, gHidden_facts.1,
    gHidden_facts.2.2.2.2.2.1, gHidden_facts.2.2.2.2.2.2.1⟩

/-- C8 (amended): an assignment in the model is an unconditional write
into the solution grid with no duplicate check and no failure path, and a
hidden-single pass can thereby silently introduce a duplicate into a
unit: row 0 of gHidden holds no 5 before the round and at least two 5s
after it. -/
theorem assignment_unchecked (g : Grid) (r c : Fin 9) (v : ℕ) :
    setCell g r c v r c = v ∧
    (List.count 5 (rowList gHidden 0) = 0 ∧
      2 ≤ List.count 5 (rowList (solveRound gHidden).1 0) ∧
      (solveRound gHidden).2 = true) :=
  ⟨setCell_self g r c v,
    gHidden_facts.2.2.2.1, gHidden_facts.2.2.2.2.2.2.2,
    gHidden_facts.2.2.2.2.1⟩

/-- Witness for C4 at gHidden, a grid on which the round raises the
keep_going flag. -/
theorem solver_terminates_witness :
    ((solveRound gHidden).2 = true ∧ (∀ r c, gHidden r c ≤ 9)) ∧
    ((∃ r c, gHidden r c ∉ oneTo9 ∧ (solveRound gHidden).1 r c ∈ oneTo9)
      ∧ emptyCount (solveRound gHidden).1 < emptyCount gHidden) ∧
    (∃ n, n ≤ 81 ∧ (solveRound (roundIter n gHidden)).2 = false) ∧
    emptyCount gHidden = ((Finset.univ : Finset (Fin 9 × Fin 9)).filter
      (fun p => gHidden p.1 p.2 = 0)).card :=
  ⟨⟨gHidden_facts.2.2.2.2.1, by decide⟩,
    (solver_terminates gHidden).1 gHidden_facts.2.2.2.2.1,
    (solver_terminates gHidden).2.1,
    (solver_terminates gHidden).2.2 (by decide)⟩

-- the row reset in _new_solution: clear every cell of row r
def clearRowNat (g : Grid) (r : ℕ) : Grid :=
  fun i j => if i.val = r then 0 else g i j

-- one step of Stage A of the generator (_new_solution): the cursor walks
-- the grid in row-major order; a pick writes a randomly chosen member v of
-- the cell's candidate list into the grid (both puzzle and solution
-- receive it, so a single grid suffices), then the feasibility check
-- either advances the cursor or resets the current row and its column to
-- 0; a completed row moves the cursor to the next row. The random choice
-- is modelled by quantifying over the candidate chosen.
inductive StageA : Grid → ℕ → ℕ → Prop where
  | init : StageA zeroGrid 0 0
  | pick_ok : ∀ (g : Grid) (r c v : ℕ) (hr : r < 9) (hc : c < 9),
      StageA g r c →
      v ∈ findPossibleValues g ⟨r, hr⟩ ⟨c, hc⟩ →
      puzzleSolvable (setCell g ⟨r, hr⟩ ⟨c, hc⟩ v) = true →
      StageA (setCell g ⟨r, hr⟩ ⟨c, hc⟩ v) r (c + 1)
  | pick_fail : ∀ (g : Grid) (r c v : ℕ) (hr : r < 9) (hc : c < 9),
      StageA g r c →
      v ∈ findPossibleValues g ⟨r, hr⟩ ⟨c, hc⟩ →
      puzzleSolvable (setCell g ⟨r, hr⟩ ⟨c, hc⟩ v) = false →
      StageA (clearRowNat (setCell g ⟨r, hr⟩ ⟨c, hc⟩ v) r) r 0
  | next_row : ∀ (g : Grid) (r : ℕ), StageA g r 9 → StageA g (r + 1) 0

lemma clearRowNat_setCell (g : Grid) (r : ℕ) (hr : r < 9) (c : Fin 9) (v : ℕ) :
    clearRowNat (setCell g ⟨r, hr⟩ c v) r = clearRowNat g r := by
  funext i j
  unfold clearRowNat
  by_cases hi : i.val = r
  · rw [if_pos hi, if_pos hi]
  · rw [if_neg hi, if_neg hi, setCell_other]
    intro hij
    exact hi (by rw [hij.1])

lemma clearRowNat_idem (g : Grid) (r : ℕ) :
    clearRowNat (clearRowNat g r) r = clearRowNat g r := by
  funext i j
  unfold clearRowNat
  by_cases hi : i.val = r <;> simp [hi]

-- a unit that still contains an empty cell with an empty candidate list
-- fails the first rule of _unique_choice, so the whole check fails
lemma puzzleSolvable_empty_cell {g : Grid} (hs : puzzleSolvable g = true)
    {i j : Fin 9} (h0 : g i j = 0) : findPossibleValues g i j ≠ [] := by
  intro hnil
  unfold puzzleSolvable at hs
  rw [Bool.and_eq_true, Bool.and_eq_true] at hs
  have hrow := hs.1.1
  rw [List.all_eq_true] at hrow
  have huc := hrow i (List.mem_finRange i)
  have hmem : ([] : List ℕ) ∈ rowLists g i := by
    unfold rowLists
    rw [List.mem_map]
    refine ⟨j, ?_, hnil⟩
    rw [List.mem_filter]
    exact ⟨List.mem_finRange j, by simp [h0]⟩
  unfold uniqueChoice at huc
  have hany : (rowLists g i).any (fun l => decide (l.toFinset.card = 0)) = true := by
    rw [List.any_eq_true]
    exact ⟨[], hmem, by decide⟩
  rw [if_pos hany] at huc
  cases huc

lemma stageA_invariant : ∀ {g : Grid} {r c : ℕ}, StageA g r c →
    (∀ (i j : Fin 9), (r < i.val ∨ (i.val = r ∧ c ≤ j.val)) → g i j = 0) ∧
    (0 < c → puzzleSolvable g = true) ∧
    puzzleSolvable (clearRowNat g r) = true := by
  intro g r c h
  induction h with
  | init =>
    refine ⟨fun i j _ => rfl, fun hc => absurd hc (by omega), ?_⟩
    have hz : clearRowNat zeroGrid 0 = zeroGrid := by
      funext i j
      unfold clearRowNat zeroGrid
      split <;> rfl
    rw [hz]
    exact zeroGrid_solvable
  | pick_ok g r c v hr hc hst hv hs ih =>
    obtain ⟨hcur, _, hclr⟩ := ih
    refine ⟨?_, fun _ => hs, ?_⟩
    · intro i j hij
      rw [setCell_other]
      · apply hcur
        rcases hij with h1 | ⟨h1, h2⟩
        · exact Or.inl h1
        · exact Or.inr ⟨h1, by omega⟩
      · intro hij2
        obtain ⟨he1, he2⟩ := hij2
        rw [he1, he2] at hij
        simp only [Fin.val] at hij
        rcases hij with h1 | ⟨_, h2⟩
        · omega
        · omega
    · rw [clearRowNat_setCell g r hr ⟨c, hc⟩ v]
      exact hclr
  | pick_fail g r c v hr hc hst hv hs ih =>
    obtain ⟨hcur, _, hclr⟩ := ih
    refine ⟨?_, fun hc0 => absurd hc0 (by omega), ?_⟩
    · intro i j hij
      unfold clearRowNat
      by_cases hi : i.val = r
      · rw [if_pos hi]
      · rw [if_neg hi]
        rw [setCell_other]
        · apply hcur
          rcases hij with h1 | ⟨h1, _⟩
          · exact Or.inl h1
          · exact absurd h1 hi
        · intro hij2
          exact hi (by rw [hij2.1])
    · rw [clearRowNat_idem, clearRowNat_setCell g r hr ⟨c, hc⟩ v]
      exact hclr
  | next_row g r hst ih =>
    obtain ⟨hcur, hpos, _⟩ := ih
    have hsolv : puzzleSolvable g = true := hpos (by omega)
    refine ⟨?_, fun hc0 => absurd hc0 (by omega), ?_⟩
    · intro i j hij
      apply hcur
      rcases hij with h1 | ⟨h1, _⟩
      · exact Or.inl (by omega)
      · exact Or.inl (by omega)
    · have hgr : clearRowNat g (r + 1) = g := by
        funext i j
        unfold clearRowNat
        by_cases hi : i.val = r + 1
        · rw [if_pos hi]
          exact (hcur i j (Or.inl (by omega))).symm
        · rw [if_neg hi]
      rw [hgr]
      exact hsolv

/-- C10: in every reachable state of Stage A of the generator, the
candidate list of the cell about to be picked from is nonempty, so the
random choice cannot fault: every reachable state either just passed the
feasibility check (whose empty-set rule rules out empty candidate lists at
empty cells) or is a freshly reset row whose grid coincides with the
last checked one. -/
theorem stageA_pick_nonempty {g : Grid} {r c : ℕ} (h : StageA g r c)
    (hr : r < 9) (hc : c < 9) :
    findPossibleValues g ⟨r, hr⟩ ⟨c, hc⟩ ≠ [] := by
  obtain ⟨hcur, hpos, hclr⟩ := stageA_invariant h
  have h0 : g ⟨r, hr⟩ ⟨c, hc⟩ = 0 := hcur _ _ (Or.inr ⟨rfl, le_refl c⟩)
  by_cases hc0 : 0 < c
  · exact puzzleSolvable_empty_cell (hpos hc0) h0
  · have hceq : c = 0 := by omega
    have hgeq : clearRowNat g r = g := by
      funext i j
      unfold clearRowNat
      by_cases hi : i.val = r
      · rw [if_pos hi]
        exact (hcur i j (Or.inr ⟨hi, by omega⟩)).symm
      · rw [if_neg hi]
    have hsolv : puzzleSolvable g = true := by
      rw [← hgeq]
      exact hclr
    exact puzzleSolvable_empty_cell hsolv h0

/-- Witness for C10 at the initial state of Stage A. -/
theorem stageA_pick_nonempty_witness :
    StageA zeroGrid 0 0 ∧ findPossibleValues zeroGrid 0 0 ≠ [] :=
  ⟨StageA.init, stageA_pick_nonempty StageA.init (by omega) (by omega)⟩

-- the decimal digit characters of a natural number, most significant
-- first: the characters of Python's str(entry) for a nonnegative entry
def natToChars (n : ℕ) : List Char :=
  if h : n < 10 then [Char.ofNat (48 + n)]
  else natToChars (n / 10) ++ [Char.ofNat (48 + n % 10)]
termination_by n
decreasing_by
  exact Nat.div_lt_self (by omega) (by omega)

-- int(field): a nonempty all-digit character sequence denotes a number,
-- anything else is a parse failure
def parseNat (cs : List Char) : Option ℕ :=
  if cs ≠ [] ∧ cs.all (fun ch => ch.isDigit) then
    some (cs.foldl (fun acc ch => 10 * acc + (ch.toNat - 48)) 0)
  else none

-- split a character sequence at every occurrence of the separator (the
-- comma splitting done by csv.reader, the newline splitting done by line
-- iteration)
def splitOnChar (sep : Char) (cs : List Char) : List (List Char) :=
  cs.foldr
    (fun ch acc =>
      if ch = sep then [] :: acc else (ch :: acc.headI) :: acc.tail)
    [[]]

-- sequential parsing of a list, failing as soon as one element fails (the
-- `for` loops of puzzle_from_csv, whose int() failures abort the read)
def mapMOpt {α β : Type} (f : α → Option β) : List α → Option (List β)
  | [] => some []
  | x :: xs => (f x).bind (fun y => (mapMOpt f xs).bind (fun ys => some (y :: ys)))

-- one emitted row: str(entry) + "," for each entry, then the trailing
-- comma replaced by a newline (csv_string[0:-1] + "\n")
def rowToCsvChars (entries : List ℕ) : List Char :=
  (entries.foldl (fun acc e => acc ++ (natToChars e ++ [','])) []).dropLast ++ ['\n']

-- _grid_to_csv_string: the rows of the grid, emitted in order
def gridToCsvChars (g : Grid) : List Char :=
  (List.finRange 9).foldl (fun acc r => acc ++ rowToCsvChars (rowList g r)) []

-- the lines csv.reader sees when iterating the file: split at newlines; a
-- trailing newline produces no extra empty line
def splitLines (cs : List Char) : List (List Char) :=
  if (splitOnChar '\n' cs).getLast? = some [] then
    (splitOnChar '\n' cs).dropLast
  else splitOnChar '\n' cs

-- Sudoku.puzzle_from_csv on the textual content: every line must parse
-- into exactly 9 integers and there must be exactly 9 lines
def puzzleFromCsvChars (cs : List Char) : Option (List (List ℕ)) :=
  (mapMOpt
      (fun line =>
        (mapMOpt parseNat (splitOnChar ',' line)).bind
          (fun row => if row.length = 9 then some row else none))
      (splitLines cs)).bind
    (fun rows => if rows.length = 9 then some rows else none)

-- the grid as the list of its rows, the value puzzle_from_csv stores
def gridRows (g : Grid) : List (List ℕ) :=
  (List.finRange 9).map (fun r => rowList g r)

-- digit characters

lemma natToChars_small {n : ℕ} (h : n ≤ 9) :
    natToChars n = [Char.ofNat (48 + n)] := by
  rw [natToChars]
  rw [dif_pos (by omega)]

lemma digit_char_facts : ∀ d : Fin 10,
    (Char.ofNat (48 + d.val)).isDigit = true ∧
    Char.ofNat (48 + d.val) ≠ ',' ∧
    Char.ofNat (48 + d.val) ≠ '\n' ∧
    parseNat [Char.ofNat (48 + d.val)] = some d.val := by
  decide

lemma digit_char_facts_le {d : ℕ} (h : d ≤ 9) :
    (Char.ofNat (48 + d)).isDigit = true ∧
    Char.ofNat (48 + d) ≠ ',' ∧
    Char.ofNat (48 + d) ≠ '\n' ∧
    parseNat [Char.ofNat (48 + d)] = some d :=
  digit_char_facts ⟨d, by omega⟩

-- basic splitter equations

lemma splitOnChar_nil (sep : Char) : splitOnChar sep [] = [[]] := rfl

lemma splitOnChar_cons_sep (sep : Char) (cs : List Char) :
    splitOnChar sep (sep :: cs) = [] :: splitOnChar sep cs := by
  unfold splitOnChar
  rw [List.foldr_cons, if_pos rfl]

lemma splitOnChar_cons_other {sep ch : Char} (h : ch ≠ sep) (cs : List Char) :
    splitOnChar sep (ch :: cs) =
      (ch :: (splitOnChar sep cs).headI) :: (splitOnChar sep cs).tail := by
  unfold splitOnChar
  rw [List.foldr_cons, if_neg h]

lemma splitOnChar_ne_nil (sep : Char) (cs : List Char) :
    splitOnChar sep cs ≠ [] := by
  induction cs with
  | nil => exact fun h => List.noConfusion h
  | cons ch rest ih =>
    by_cases hch : ch = sep
    · subst hch
      rw [splitOnChar_cons_sep]
      exact fun h => List.noConfusion h
    · rw [splitOnChar_cons_other hch]
      exact fun h => List.noConfusion h

lemma splitOnChar_no_sep {sep : Char} :
    ∀ {w : List Char}, sep ∉ w → splitOnChar sep w = [w] := by
  intro w
  induction w with
  | nil => intro _; rfl
  | cons ch rest ih =>
    intro hmem
    have hch : ch ≠ sep := fun h => hmem (by rw [h]; exact List.mem_cons_self _ _)
    have hrest : sep ∉ rest := fun h => hmem (List.mem_cons_of_mem _ h)
    rw [splitOnChar_cons_other hch, ih hrest]
    rfl

lemma splitOnChar_append {sep : Char} :
    ∀ {w : List Char}, sep ∉ w → ∀ rest,
      splitOnChar sep (w ++ sep :: rest) = w :: splitOnChar sep rest := by
  intro w
  induction w with
  | nil =>
    intro _ rest
    rw [List.nil_append, splitOnChar_cons_sep]
  | cons ch wrest ih =>
    intro hmem rest
    have hch : ch ≠ sep := fun h => hmem (by rw [h]; exact List.mem_cons_self _ _)
    have hw : sep ∉ wrest := fun h => hmem (List.mem_cons_of_mem _ h)
    rw [List.cons_append, splitOnChar_cons_other hch, ih hw rest]
    rfl

-- the comma-joined text of one row of single-digit entries

lemma row_flat_eq : ∀ (entries : List ℕ), entries ≠ [] →
    (∀ e ∈ entries, e ≤ 9) →
    entries.flatMap (fun e => natToChars e ++ [','])
      = (List.intersperse ',' (entries.map (fun e => Char.ofNat (48 + e)))) ++ [','] := by
  intro entries
  induction entries with
  | nil => intro h; cases h rfl
  | cons e rest ih =>
    intro _ hle
    have he : e ≤ 9 := hle e (List.mem_cons_self _ _)
    rcases rest with _ | ⟨b, rest2⟩
    · simp [natToChars_small he, List.intersperse]
    · have hrest : (∀ x ∈ b :: rest2, x ≤ 9) :=
        fun x hx => hle x (List.mem_cons_of_mem _ hx)
      rw [List.flatMap_cons, ih (fun h => List.noConfusion h) hrest,
        natToChars_small he]
      simp only [List.map_cons]
      rw [List.intersperse_cons_cons]
      simp [List.append_assoc]

lemma foldl_append_gen {α β : Type} (f : β → List α) :
    ∀ (l : List β) (a : List α),
      l.foldl (fun acc e => acc ++ f e) a = a ++ l.flatMap f := by
  intro l
  induction l with
  | nil => intro a; simp
  | cons x xs ih =>
    intro a
    rw [List.foldl_cons, ih, List.flatMap_cons, List.append_assoc]

lemma rowToCsvChars_eq (entries : List ℕ) (hne : entries ≠ [])
    (hle : ∀ e ∈ entries, e ≤ 9) :
    rowToCsvChars entries =
      (List.intersperse ',' (entries.map (fun e => Char.ofNat (48 + e)))) ++ ['\n'] := by
  unfold rowToCsvChars
  rw [foldl_append_gen, List.nil_append, row_flat_eq entries hne hle,
    List.dropLast_concat]

lemma mem_intersperse {sep x : Char} :
    ∀ {l : List Char}, x ∈ List.intersperse sep l → x ∈ l ∨ x = sep := by
  intro l
  induction l with
  | nil => intro h; cases h
  | cons a rest ih =>
    intro hmem
    rcases rest with _ | ⟨b, rest2⟩
    · exact Or.inl hmem
    · rw [List.intersperse_cons_cons] at hmem
      rcases List.mem_cons.mp hmem with rfl | hmem2
      · exact Or.inl (List.mem_cons_self _ _)
      · rcases List.mem_cons.mp hmem2 with rfl | hmem3
        · exact Or.inr rfl
        · rcases ih hmem3 with h | h
          · exact Or.inl (List.mem_cons_of_mem _ h)
          · exact Or.inr h

lemma newline_not_mem_line {entries : List ℕ} (hle : ∀ e ∈ entries, e ≤ 9) :
    ('\n' : Char) ∉
      List.intersperse ',' (entries.map (fun e => Char.ofNat (48 + e))) := by
  intro hmem
  rcases mem_intersperse hmem with h | h
  · rcases List.mem_map.mp h with ⟨e, he, heq⟩
    exact (digit_char_facts_le (hle e he)).2.2.1 heq
  · cases h

-- splitting the emitted text back into lines

lemma split_emitted_lines {β : Type} (sep : Char) (f : β → List Char) :
    ∀ (rs : List β), (∀ r ∈ rs, sep ∉ f r) →
      splitOnChar sep (rs.flatMap (fun r => f r ++ [sep])) = rs.map f ++ [[]] := by
  intro rs
  induction rs with
  | nil => intro _; rfl
  | cons r rest ih =>
    intro hmem
    have h1 : sep ∉ f r := hmem r (List.mem_cons_self _ _)
    have h2 : ∀ x ∈ rest, sep ∉ f x := fun x hx => hmem x (List.mem_cons_of_mem _ hx)
    rw [List.flatMap_cons, List.append_assoc, List.singleton_append,
      splitOnChar_append h1, ih h2, List.map_cons, List.cons_append]

-- splitting one emitted line back into its fields

lemma split_line_fields : ∀ (entries : List ℕ), entries ≠ [] →
    (∀ e ∈ entries, e ≤ 9) →
    splitOnChar ','
        (List.intersperse ',' (entries.map (fun e => Char.ofNat (48 + e))))
      = entries.map (fun e => [Char.ofNat (48 + e)]) := by
  intro entries
  induction entries with
  | nil => intro h; cases h rfl
  | cons e rest ih =>
    intro _ hle
    have he : e ≤ 9 := hle e (List.mem_cons_self _ _)
    have hch : Char.ofNat (48 + e) ≠ ',' := (digit_char_facts_le he).2.1
    rcases rest with _ | ⟨b, rest2⟩
    · simp only [List.map_cons, List.map_nil, List.intersperse]
      apply splitOnChar_no_sep
      intro hmem
      rcases List.mem_cons.mp hmem with h1 | h1
      · exact hch h1.symm
      · cases h1
    · have ihh := ih (fun h => List.noConfusion h)
        (fun x hx => hle x (List.mem_cons_of_mem _ hx))
      rw [List.map_cons] at ihh
      rw [List.map_cons, List.map_cons, List.intersperse_cons_cons,
        splitOnChar_cons_other hch, splitOnChar_cons_sep, ihh]
      rfl

lemma mapMOpt_digits : ∀ (entries : List ℕ), (∀ e ∈ entries, e ≤ 9) →
    mapMOpt parseNat (entries.map (fun e => [Char.ofNat (48 + e)]))
      = some entries := by
  intro entries
  induction entries with
  | nil => intro _; rfl
  | cons e rest ih =>
    intro hle
    have he : e ≤ 9 := hle e (List.mem_cons_self _ _)
    rw [List.map_cons]
    show (parseNat [Char.ofNat (48 + e)]).bind _ = _
    rw [(digit_char_facts_le he).2.2.2, Option.some_bind,
      ih (fun x hx => hle x (List.mem_cons_of_mem _ hx)), Option.some_bind]

lemma mapMOpt_map {α β γ : Type} (f : β → Option γ) (h : α → β) (k : α → γ) :
    ∀ (l : List α), (∀ x ∈ l, f (h x) = some (k x)) →
      mapMOpt f (l.map h) = some (l.map k) := by
  intro l
  induction l with
  | nil => intro _; rfl
  | cons x xs ih =>
    intro hall
    rw [List.map_cons]
    show (f (h x)).bind _ = _
    rw [hall x (List.mem_cons_self _ _), Option.some_bind,
      ih (fun y hy => hall y (List.mem_cons_of_mem _ hy)), Option.some_bind,
      List.map_cons]

lemma flatMap_ext {α β : Type} (f f2 : α → List β) :
    ∀ l : List α, (∀ x ∈ l, f x = f2 x) → l.flatMap f = l.flatMap f2 := by
  intro l
  induction l with
  | nil => intro _; rfl
  | cons x xs ih =>
    intro hall
    rw [List.flatMap_cons, List.flatMap_cons, hall x (List.mem_cons_self _ _),
      ih (fun y hy => hall y (List.mem_cons_of_mem _ hy))]

/-- C9: emitting a 9x9 grid with entries in [0,9] as comma-separated text
(9 lines of 9 comma-separated integers, no trailing separator) and reading
the text back through the csv ingestion yields exactly the original grid. -/
theorem csv_round_trip (g : Grid) (hg : ∀ r c, g r c ≤ 9) :
    puzzleFromCsvChars (gridToCsvChars g) = some (gridRows g) := by
  have hrowle : ∀ r : Fin 9, ∀ e ∈ rowList g r, e ≤ 9 := by
    intro r e he
    rcases List.mem_map.mp he with ⟨c, _, rfl⟩
    exact hg r c
  have hrowne : ∀ r : Fin 9, rowList g r ≠ [] := by
    intro r h
    have : (rowList g r).length = 9 := by
      unfold rowList
      rw [List.length_map, List.length_finRange]
    rw [h] at this
    cases this
  have hemit : gridToCsvChars g = (List.finRange 9).flatMap
      (fun r => (List.intersperse ','
        ((rowList g r).map (fun e => Char.ofNat (48 + e)))) ++ ['\n']) := by
    unfold gridToCsvChars
    rw [foldl_append_gen (fun r => rowToCsvChars (rowList g r)), List.nil_append]
    apply flatMap_ext
    intro r _
    exact rowToCsvChars_eq (rowList g r) (hrowne r) (hrowle r)
  have hsplit := split_emitted_lines ('\n')
    (fun r => List.intersperse ','
      ((rowList g r).map (fun e => Char.ofNat (48 + e))))
    (List.finRange 9)
    (fun r _ => newline_not_mem_line (hrowle r))
  have hline : ∀ r ∈ List.finRange 9,
      (mapMOpt parseNat (splitOnChar ','
          (List.intersperse ','
            ((rowList g r).map (fun e => Char.ofNat (48 + e)))))).bind
        (fun row => if row.length = 9 then some row else none)
      = some (rowList g r) := by
    intro r _
    rw [split_line_fields (rowList g r) (hrowne r) (hrowle r),
      mapMOpt_digits _ (hrowle r), Option.some_bind, if_pos]
    unfold rowList
    rw [List.length_map, List.length_finRange]
  rw [hemit]
  unfold puzzleFromCsvChars splitLines
  rw [hsplit, List.getLast?_concat, if_pos rfl, List.dropLast_concat,
    mapMOpt_map _ _ (fun r => rowList g r) (List.finRange 9) hline,
    Option.some_bind, if_pos]
  · rfl
  · rw [List.length_map, List.length_finRange]

/-- Witness for C9 at the grid gNoCandidate. -/
theorem csv_round_trip_witness :
    (∀ r c, gNoCandidate r c ≤ 9) ∧
    puzzleFromCsvChars (gridToCsvChars gNoCandidate) = some (gridRows gNoCandidate) :=
  ⟨by decide, csv_round_trip gNoCandidate (by decide)⟩
